import Mathlib

/-!
Verification of the retention / legal-hold batch logic of the eHRfiles
admin console.  The definitions below are a shallow embedding of the
TypeScript code in `src/app/frame/admin/batch-ret/page.tsx` (the Retention
Status Resolver) and of the legal-hold batch page (the Legal Hold
Propagator).  JavaScript `Date` values are modelled as calendar triples;
a nullable date-string field together with its `new Date(...)` parse is
modelled by a pre-parsed field that is either null, an invalid date, or a
valid calendar date.  JavaScript numbers in the `d_r_month` column are
modelled as `Option Int`: `none` stands for the non-finite values
(`NaN`, infinities) rejected by `Number.isFinite`, `some k` for a finite
integer value (the data contract promises integers).
-/

namespace EHR

/-- Model of the JavaScript whitespace test used by `String.prototype.trim`
(restricted to the common whitespace characters; none of the claims depend
on the exotic ones). -/
def jsIsWs (c : Char) : Bool :=
  c = ' ' || c = '\t' || c = '\n' || c = '\r'

/-- Trim on the character list: drop whitespace from the front, then from
the back. -/
def trimChars (l : List Char) : List Char :=
  ((l.dropWhile jsIsWs).reverse.dropWhile jsIsWs).reverse

/-- Model of `s.trim()`. -/
def jsTrim (s : String) : String := String.mk (trimChars s.data)

/-- Model of `norm` from `batch-ret/page.tsx`: `(s ?? "").trim()`. -/
def norm (s : Option String) : String := jsTrim (s.getD "")

/-- Model of `s.toLowerCase()` (character-wise, which is what it does on
the ASCII trigger and status strings this code compares). -/
def jsToLower (s : String) : String := String.mk (s.data.map Char.toLower)

/-- Decimal digit character. -/
def digitChar (n : Nat) : Char := Char.ofNat (48 + n)

/-- Fuel-driven decimal digit expansion (most significant digit first).
Structural recursion on the fuel keeps the definition kernel-reducible. -/
def natToCharsAux : Nat → Nat → List Char
  | 0, _ => []
  | fuel + 1, n =>
    if n < 10 then [digitChar n]
    else natToCharsAux fuel (n / 10) ++ [digitChar (n % 10)]

/-- Decimal digits of a natural number. -/
def natToChars (n : Nat) : List Char := natToCharsAux (n + 1) n

/-- Model of the JavaScript `String(n)` conversion for a non-negative
integer value. -/
def natToString (n : Nat) : String := String.mk (natToChars n)

/-- Model of `String(i)` for an integer-valued JavaScript number. -/
def intToString (i : Int) : String :=
  if i < 0 then "-" ++ natToString i.natAbs else natToString i.natAbs

/-- Model of `s.padStart(2, "0")` as used in `toISODate`. -/
def padStart2 (s : String) : String :=
  if 2 ≤ s.length then s else if s.length = 1 then "0" ++ s else "00"

/-- A calendar date (proleptic Gregorian), the date-only content of a
JavaScript `Date`.  `month` is 1-based. -/
structure CalDate where
  year : Int
  month : Int
  day : Int
deriving DecidableEq

/-- Gregorian leap-year test, as implemented by the JavaScript `Date`
month arithmetic. -/
def isLeap (y : Int) : Bool :=
  (y % 4 == 0 && y % 100 != 0) || y % 400 == 0

/-- Number of days of a month. -/
def daysInMonth (y m : Int) : Int :=
  if m = 2 then (if isLeap y then 29 else 28)
  else if m = 4 ∨ m = 6 ∨ m = 9 ∨ m = 11 then 30
  else 31

/-- Model of `addMonths` from `batch-ret/page.tsx`:

  `d.setMonth(d.getMonth() + months); if (d.getDate() < day) d.setDate(0);`

`setMonth` normalises the month index (floor division, matching the
JavaScript behaviour also for negative indices) and lets an overlong
day-of-month spill over into the following month (for a day-of-month of at
most 31 the spill is at most one month, which is the domain this model
covers); `setDate(0)` then moves to the last day of the preceding month. -/
def addMonths (base : CalDate) (months : Int) : CalDate :=
  let m0 : Int := base.month - 1 + months
  let ty : Int := base.year + Int.ediv m0 12
  let tm : Int := Int.emod m0 12 + 1
  let afterSetMonth : CalDate :=
    if base.day ≤ daysInMonth ty tm then ⟨ty, tm, base.day⟩
    else if tm = 12 then ⟨ty + 1, 1, base.day - daysInMonth ty tm⟩
    else ⟨ty, tm + 1, base.day - daysInMonth ty tm⟩
  if afterSetMonth.day < base.day then
    if afterSetMonth.month = 1 then
      ⟨afterSetMonth.year - 1, 12, daysInMonth (afterSetMonth.year - 1) 12⟩
    else
      ⟨afterSetMonth.year, afterSetMonth.month - 1,
        daysInMonth afterSetMonth.year (afterSetMonth.month - 1)⟩
  else afterSetMonth

/-- Model of `dateOnlyTs`: an integer encoding of the local-midnight
timestamp `new Date(y, m, d).getTime()`.  The encoding is strictly
monotone in lexicographic year/month/day order for in-range months and
days, exactly as the millisecond timestamp is. -/
def dateOnlyTs (d : CalDate) : Int :=
  d.year * 372 + (d.month - 1) * 31 + (d.day - 1)

/-- Model of `isExpiredPerSpec`. -/
def isExpiredPerSpec (deletion today : CalDate) : Bool :=
  dateOnlyTs deletion < dateOnlyTs today

/-- Model of `toISODate`. -/
def toISODate (d : CalDate) : String :=
  intToString d.year ++ "-" ++ padStart2 (intToString d.month) ++ "-" ++
    padStart2 (intToString d.day)

/-- A nullable date-string column together with its `new Date(...)` parse:
null (or empty, which is falsy), an unparseable string, or a valid date. -/
inductive DateVal where
  | null
  | invalid
  | valid (d : CalDate)
deriving DecidableEq

/-- Model of the `EmpMini` row type of `batch-ret/page.tsx`. -/
structure EmpMini where
  e_id : String
  e_status : Option String
  e_tdate : DateVal
deriving DecidableEq

/-- Model of the `RetDoc` row type of `batch-ret/page.tsx`. -/
structure RetDoc where
  d_id : String
  e_id : Option String
  e_lhold : Option Bool
  d_date : DateVal
  d_r_trigger : String
  d_r_rule : String
  d_r_month : Option Int
  d_r_deletion : Option String
  d_r_status : Option String
deriving DecidableEq

/-- Model of `!!x` on a `boolean | null` column. -/
def jsTruthyB (b : Option Bool) : Bool := b.getD false

/-- Model of `isTerminated` on a present employee row (the `!emp` guard of
the source is folded into the `Option` match of the caller). -/
def isTerminated (emp : EmpMini) : Bool :=
  jsToLower (norm emp.e_status) = "terminated"

/-- The normalised trigger: `norm(d.d_r_trigger).toLowerCase()`. -/
def trigOf (d : RetDoc) : String := jsToLower (norm (some d.d_r_trigger))

/-- Model of `d.e_id ? empMap.get(d.e_id) : undefined` (null and the empty
string are falsy). -/
def lookupEmp (empMap : String → Option EmpMini) (d : RetDoc) : Option EmpMini :=
  match d.e_id with
  | some s => if s = "" then none else empMap s
  | none => none

/-- The `trig === "termination"` branch of the resolver loop. -/
def resolveTermination (empMap : String → Option EmpMini) (today : CalDate)
    (d : RetDoc) (months : Int) : String × Option String :=
  match lookupEmp empMap d with
  | none => ("not started", none)
  | some emp =>
    if isTerminated emp = false then ("not started", none)
    else
      match emp.e_tdate with
      | DateVal.valid t =>
        let del := addMonths t months
        ((if isExpiredPerSpec del today then "expired" else "started"),
          some (toISODate del))
      | _ => ("not started", none)

/-- The `trig === "cassation date"` branch of the resolver loop. -/
def resolveCassation (today : CalDate) (d : RetDoc) (months : Int) :
    String × Option String :=
  match d.d_date with
  | DateVal.valid b =>
    let del := addMonths b months
    ((if isExpiredPerSpec del today then "expired" else "started"),
      some (toISODate del))
  | _ => ("not started", none)

/-- The per-document body of `runBatch` in `batch-ret/page.tsx`: the target
`(d_r_status, d_r_deletion)` pair.  The source guard
`if (!trig || !Number.isFinite(months))` is rendered as: non-finite months
fall back first, then an empty trigger. -/
def resolveDoc (empMap : String → Option EmpMini) (today : CalDate)
    (d : RetDoc) : String × Option String :=
  if jsTruthyB d.e_lhold then ("legal hold", none)
  else
    match d.d_r_month with
    | none => ("not started", none)
    | some months =>
      if trigOf d = "" then ("not started", none)
      else if trigOf d = "termination" then resolveTermination empMap today d months
      else if trigOf d = "cassation date" then resolveCassation today d months
      else ("not started", none)

/-- A queued retention update row. -/
structure RetUpdate where
  d_id : String
  d_r_status : String
  d_r_deletion : Option String
deriving DecidableEq

/-- The per-document write decision of `runBatch`: skip documents with a
falsy `d_id`, recompute the target pair, and queue an update exactly when
the normalised stored pair differs from the target pair. -/
def docUpdate (empMap : String → Option EmpMini) (today : CalDate)
    (d : RetDoc) : Option RetUpdate :=
  if d.d_id = "" then none
  else
    let r := resolveDoc empMap today d
    let oldStatus := norm d.d_r_status
    let oldDeletion := norm d.d_r_deletion
    let nextDeletion := r.2.getD ""
    if oldStatus ≠ r.1 ∨ oldDeletion ≠ nextDeletion then
      some ⟨d.d_id, r.1, r.2⟩
    else none

/-- The full update list queued by one resolver pass. -/
def runBatchUpdates (empMap : String → Option EmpMini) (today : CalDate)
    (docs : List RetDoc) : List RetUpdate :=
  docs.filterMap (docUpdate empMap today)

/-- The state of a document row after the resolver pass has applied its
queued update (documents without a queued update are untouched). -/
def applyDoc (empMap : String → Option EmpMini) (today : CalDate)
    (d : RetDoc) : RetDoc :=
  match docUpdate empMap today d with
  | some u => { d with d_r_status := some u.d_r_status, d_r_deletion := u.d_r_deletion }
  | none => d

/-- Model of `chunk` (both batch pages): fuel-driven so that it stays
kernel-reducible; the fuel is always sufficient at the call sites.  The
source never calls it with size 0 (it would loop there). -/
def chunkAux {α : Type} : Nat → List α → Nat → List (List α)
  | 0, _, _ => []
  | fuel + 1, l, size =>
    if l.isEmpty || size == 0 then []
    else l.take size :: chunkAux fuel (l.drop size) size

/-- Model of `chunk(arr, size)`. -/
def chunk {α : Type} (l : List α) (size : Nat) : List (List α) :=
  chunkAux (l.length + 1) l size

/-- Employee row as read by the legal-hold batch (`e_id`, `e_lhold`). -/
structure LhEmp where
  e_id : String
  e_lhold : Option Bool
deriving DecidableEq

/-- Document row as read by the legal-hold batch (`d_id`, `e_id`,
`e_lhold`). -/
structure LhDoc where
  d_id : String
  e_id : Option String
  e_lhold : Option Bool
deriving DecidableEq

/-- Model of the store query `.eq("e_lhold", b)` on documents (a null
column matches neither value). -/
def selDocsByHold (docs : List LhDoc) (b : Bool) : List LhDoc :=
  docs.filter (fun d => d.e_lhold = some b)

/-- Model of the store query `.eq("e_lhold", b)` on employees. -/
def selEmpsByHold (emps : List LhEmp) (b : Bool) : List LhEmp :=
  emps.filter (fun e => e.e_lhold = some b)

/-- The `activateDocIds` computation of the legal-hold `runBatch`:
documents with `e_lhold = false` whose (truthy) `e_id` is in the set of
employees with `e_lhold = true`. -/
def activateDocIds (docs : List LhDoc) (emps : List LhEmp) : List String :=
  ((selDocsByHold docs false).filter (fun d =>
      match d.e_id with
      | some eid => eid ≠ "" && (selEmpsByHold emps true).any (fun e => e.e_id = eid)
      | none => false)).map (fun d => d.d_id)

/-- The `removeDocIds` computation: documents with `e_lhold = true` whose
(truthy) `e_id` is in the set of employees with `e_lhold = false`. -/
def removeDocIds (docs : List LhDoc) (emps : List LhEmp) : List String :=
  ((selDocsByHold docs true).filter (fun d =>
      match d.e_id with
      | some eid => eid ≠ "" && (selEmpsByHold emps false).any (fun e => e.e_id = eid)
      | none => false)).map (fun d => d.d_id)

/-- Effect of one `update({ e_lhold: b }).in("d_id", ids)` call on the
document table. -/
def applyHoldTo (docs : List LhDoc) (ids : List String) (b : Bool) : List LhDoc :=
  docs.map (fun d => if ids.contains d.d_id then { d with e_lhold := some b } else d)

/-- Effect of the chunked update loop on the document table. -/
def applyHoldChunks (docs : List LhDoc) (ids : List String) (b : Bool) : List LhDoc :=
  (chunk ids 500).foldl (fun ds c => applyHoldTo ds c b) docs

/-- The `activated` / `removed` counter of the update loop: chunks are
skipped when empty, otherwise their length is accumulated. -/
def countViaChunks (ids : List String) : Nat :=
  (chunk ids 500).foldl (fun acc c => if c.length = 0 then acc else acc + c.length) 0

/-- State of the document table after a successful legal-hold batch run:
all activation chunks applied, then all removal chunks. -/
def runLhPropagator (docs : List LhDoc) (emps : List LhEmp) : List LhDoc :=
  applyHoldChunks (applyHoldChunks docs (activateDocIds docs emps) true)
    (removeDocIds docs emps) false

/-- Model of the `OutRow` display rows of both batch pages. -/
structure OutRow where
  label : String
  value : String
  isBlank : Bool
deriving DecidableEq

/-- Model of the page state: the report rows plus the status line. -/
structure UiState where
  rows : List OutRow
  status : String
deriving DecidableEq

/-- Model of `setValue`. -/
def setValue (rows : List OutRow) (label v : String) : List OutRow :=
  rows.map (fun r => if r.label = label then { r with value := v } else r)

/-- Model of `clearAllValues`. -/
def clearAllValues (rows : List OutRow) : List OutRow :=
  rows.map (fun r => if r.isBlank then r else { r with value := "" })

/-- Value shown for a label (the labels of both pages are unique among the
non-blank rows). -/
def getValue (rows : List OutRow) (label : String) : String :=
  ((rows.find? (fun r => r.label = label)).map (fun r => r.value)).getD ""

/-- The initial `rows` state of the retention batch page. -/
def initialRetRows : List OutRow :=
  [⟨"Start time", "", false⟩, ⟨"", "", true⟩,
   ⟨"Total number of documents", "", false⟩, ⟨"", "", true⟩,
   ⟨"Total number of updated retention status", "", false⟩, ⟨"", "", true⟩,
   ⟨"Number of documents in status \x22not set\x22", "", false⟩,
   ⟨"Number of documents in status \x22not started\x22", "", false⟩,
   ⟨"Number of documents in status \x22started\x22", "", false⟩,
   ⟨"Number of documents in status \x22legal hold\x22", "", false⟩,
   ⟨"Number of documents in status \x22expired\x22", "", false⟩,
   ⟨"", "", true⟩, ⟨"End time", "", false⟩, ⟨"Process duration", "", false⟩]

/-- The initial `rows` state of the legal-hold batch page. -/
def initialLhRows : List OutRow :=
  [⟨"Start time", "", false⟩, ⟨"", "", true⟩,
   ⟨"Employees, Legal Hold = no", "", false⟩,
   ⟨"Employees, Legal Hold = yes", "", false⟩,
   ⟨"Employees, Total", "", false⟩, ⟨"", "", true⟩,
   ⟨"Legal Hold activated (Yes) for documents", "", false⟩,
   ⟨"Legal Hold removed (No) for documents", "", false⟩, ⟨"", "", true⟩,
   ⟨"Documents, Legal Hold = no", "", false⟩,
   ⟨"Documents, Legal Hold = yes", "", false⟩,
   ⟨"Documents, Total", "", false⟩, ⟨"", "", true⟩,
   ⟨"End time", "", false⟩, ⟨"Process duration", "", false⟩]

/-- Model of the `Map.set` construction of `empMap` (later rows with the
same key overwrite earlier ones; restricting the fetch to the referenced
ids is invisible to the lookups the resolver performs). -/
def buildEmpMap (emps : List EmpMini) : String → Option EmpMini :=
  emps.foldl (fun acc e => fun k => if k = e.e_id then some e else acc k)
    (fun _ => none)

/-- Status count displayed by the retention page: the number of processed
documents (truthy `d_id`) whose computed status equals `s`. -/
def statusCountRet (empMap : String → Option EmpMini) (today : CalDate)
    (docs : List RetDoc) (s : String) : Nat :=
  ((docs.filter (fun d => d.d_id ≠ "")).filter
    (fun d => (resolveDoc empMap today d).1 = s)).length

/-- The success status line of the retention batch. -/
def successRet : String := "Successful: Retention batch finished."

/-- The success status line of the legal-hold batch. -/
def successLh : String := "Successful: Legal Hold batch finished."

/-- The chunked per-row update loop of the retention batch: the first
failing row update aborts the run with its error. -/
def applyRetWrites (writeRes : String → Except String Unit)
    (updates : List RetUpdate) : Except String Unit :=
  (chunk updates 200).foldl
    (fun acc part =>
      part.foldl
        (fun a u =>
          match a with
          | Except.error m => Except.error m
          | Except.ok _ =>
            match writeRes u.d_id with
            | Except.error m => Except.error m
            | Except.ok _ => Except.ok ())
        acc)
    (Except.ok ())

/-- The effectful skeleton of `runBatch` on the retention page.  Each
fallible store interaction is an `Except` input (the chunked employee
fetch is collapsed into one result: the first failing chunk aborts before
any later step).  Wall-clock strings are inputs.  The order of the
`setValue` calls follows the source: the document total is shown right
after the documents load, and all counts are shown before the row updates
are applied. -/
def runRetBatch (today : CalDate) (startTime endTime dur : String)
    (docsRes : Except String (List RetDoc))
    (empsRes : Except String (List EmpMini))
    (writeRes : String → Except String Unit) (st : UiState) : UiState :=
  let r1 := setValue (clearAllValues st.rows) "Start time" startTime
  match docsRes with
  | Except.error m => { rows := r1, status := "Error: " ++ m }
  | Except.ok allDocs =>
    let r2 := setValue r1 "Total number of documents" (natToString allDocs.length)
    match empsRes with
    | Except.error m => { rows := r2, status := "Error: " ++ m }
    | Except.ok emps =>
      let empMap := buildEmpMap emps
      let updates := runBatchUpdates empMap today allDocs
      let r3 := setValue r2 "Total number of updated retention status"
        (natToString updates.length)
      let r4 := setValue r3 "Number of documents in status \x22not set\x22"
        (natToString (statusCountRet empMap today allDocs "not set"))
      let r5 := setValue r4 "Number of documents in status \x22not started\x22"
        (natToString (statusCountRet empMap today allDocs "not started"))
      let r6 := setValue r5 "Number of documents in status \x22started\x22"
        (natToString (statusCountRet empMap today allDocs "started"))
      let r7 := setValue r6 "Number of documents in status \x22legal hold\x22"
        (natToString (statusCountRet empMap today allDocs "legal hold"))
      let r8 := setValue r7 "Number of documents in status \x22expired\x22"
        (natToString (statusCountRet empMap today allDocs "expired"))
      match applyRetWrites writeRes updates with
      | Except.error m => { rows := r8, status := "Error: " ++ m }
      | Except.ok _ =>
        let r9 := setValue r8 "End time" endTime
        let r10 := setValue r9 "Process duration" dur
        { rows := r10, status := successRet }

/-- The chunked id-list update loop of the legal-hold batch: empty chunks
are skipped, the first failing chunk aborts with its error. -/
def applyIdChunks (updRes : List String → Except String Unit)
    (ids : List String) : Except String Unit :=
  (chunk ids 500).foldl
    (fun acc c =>
      match acc with
      | Except.error m => Except.error m
      | Except.ok _ => if c.length = 0 then Except.ok () else updRes c)
    (Except.ok ())

/-- The effectful skeleton of `runBatch` on the legal-hold page.  The
snapshot is given by `emps` and `docs`; each fallible store interaction
takes an error-injection input (`none` = the call succeeds against the
snapshot).  The displayed counts follow the source order: employee counts
are shown before the document selections, activated/removed after both
update loops, document counts (recomputed after the writes) last. -/
def runLhBatch (emps : List LhEmp) (docs : List LhDoc)
    (empCountErr selActErr selEmpYesErr selRemErr selEmpNoErr : Option String)
    (updActRes updRemRes : List String → Except String Unit)
    (docCountErr : Option String)
    (startTime endTime dur : String) (st : UiState) : UiState :=
  let r1 := setValue (clearAllValues st.rows) "Start time" startTime
  match empCountErr with
  | some m => { rows := r1, status := "Error: " ++ m }
  | none =>
    let r2 := setValue r1 "Employees, Legal Hold = no"
      (natToString (selEmpsByHold emps false).length)
    let r3 := setValue r2 "Employees, Legal Hold = yes"
      (natToString (selEmpsByHold emps true).length)
    let r4 := setValue r3 "Employees, Total" (natToString emps.length)
    match selActErr with
    | some m => { rows := r4, status := "Error: " ++ m }
    | none =>
      match selEmpYesErr with
      | some m => { rows := r4, status := "Error: " ++ m }
      | none =>
        let act := activateDocIds docs emps
        match selRemErr with
        | some m => { rows := r4, status := "Error: " ++ m }
        | none =>
          match selEmpNoErr with
          | some m => { rows := r4, status := "Error: " ++ m }
          | none =>
            let rem := removeDocIds docs emps
            match applyIdChunks updActRes act with
            | Except.error m => { rows := r4, status := "Error: " ++ m }
            | Except.ok _ =>
              match applyIdChunks updRemRes rem with
              | Except.error m => { rows := r4, status := "Error: " ++ m }
              | Except.ok _ =>
                let r5 := setValue r4 "Legal Hold activated (Yes) for documents"
                  (natToString (countViaChunks act))
                let r6 := setValue r5 "Legal Hold removed (No) for documents"
                  (natToString (countViaChunks rem))
                match docCountErr with
                | some m => { rows := r6, status := "Error: " ++ m }
                | none =>
                  let fin := runLhPropagator docs emps
                  let r7 := setValue r6 "Documents, Legal Hold = no"
                    (natToString (selDocsByHold fin false).length)
                  let r8 := setValue r7 "Documents, Legal Hold = yes"
                    (natToString (selDocsByHold fin true).length)
                  let r9 := setValue r8 "Documents, Total" (natToString fin.length)
                  let r10 := setValue r9 "End time" endTime
                  let r11 := setValue r10 "Process duration" dur
                  { rows := r11, status := successLh }

/-- Sample employee row (terminated on 2023-01-15). -/
def empE2 : EmpMini := ⟨"E2", some "Terminated", DateVal.valid ⟨2023, 1, 15⟩⟩

/-- Sample employee map holding only `empE2`. -/
def empMapW : String → Option EmpMini :=
  fun s => if s = "E2" then some empE2 else none

/-- Sample document with a termination trigger and 12 retention months. -/
def docTermW : RetDoc :=
  ⟨"D2", some "E2", some false, DateVal.null, "Termination", "R1", some 12,
    none, some "not set"⟩

/-- Sample document under legal hold. -/
def docLhW : RetDoc :=
  ⟨"D1", some "E2", some true, DateVal.null, "Termination", "R1", some 12,
    none, some "not set"⟩

/-- Sample document with an empty trigger. -/
def docEmptyTrigW : RetDoc :=
  ⟨"D3", none, none, DateVal.valid ⟨2024, 1, 1⟩, "", "R1", some 5, none,
    some "not set"⟩

/-- Sample document with a finite negative month count. -/
def docNegW : RetDoc :=
  ⟨"D4", none, none, DateVal.valid ⟨2020, 1, 15⟩, "Cassation Date", "R1",
    some (-1), none, some "not set"⟩

/-- Sample legal-hold snapshot: employees. -/
def lhEmpsW : List LhEmp := [⟨"E1", some true⟩, ⟨"E3", some false⟩]

/-- Sample legal-hold snapshot: documents (one to activate, one to remove,
one orphan). -/
def lhDocsW : List LhDoc :=
  [⟨"D1", some "E1", some false⟩, ⟨"D3", some "E3", some true⟩,
   ⟨"D9", some "EX", some false⟩]

/-! Helper lemmas. -/

theorem daysInMonth_bounds (y m : Int) :
    28 ≤ daysInMonth y m ∧ daysInMonth y m ≤ 31 := by
  unfold daysInMonth
  split_ifs <;> omega

/-- Closed form of `addMonths`: the target month is the normalised month
index, and the day is preserved when it fits, clamped to the last day of
the target month otherwise. -/
theorem addMonths_eq_clamp (d : CalDate) (months : Int) :
    addMonths d months =
      ⟨d.year + Int.ediv (d.month - 1 + months) 12,
       Int.emod (d.month - 1 + months) 12 + 1,
       min d.day
         (daysInMonth (d.year + Int.ediv (d.month - 1 + months) 12)
           (Int.emod (d.month - 1 + months) 12 + 1))⟩ := by
  unfold addMonths
  dsimp only
  set m0 := d.month - 1 + months with hm0
  set ty := d.year + Int.ediv m0 12 with hty
  set tm := Int.emod m0 12 + 1 with htm
  have h1 : 0 ≤ Int.emod m0 12 := Int.emod_nonneg m0 (by omega)
  have h2 : Int.emod m0 12 < 12 := Int.emod_lt_of_pos m0 (by omega)
  have hb := daysInMonth_bounds ty tm
  by_cases hle : d.day ≤ daysInMonth ty tm
  · rw [if_pos hle]
    dsimp only
    rw [if_neg (lt_irrefl d.day)]
    rw [min_eq_left hle]
  · rw [if_neg hle]
    by_cases h12 : tm = 12
    · rw [if_pos h12]
      dsimp only
      rw [if_pos (by omega)]
      rw [if_pos rfl]
      rw [(by omega : ty + 1 - 1 = ty), h12]
      have hle2 : daysInMonth ty 12 ≤ d.day := by rw [← h12]; omega
      rw [min_eq_right hle2]
    · rw [if_neg h12]
      dsimp only
      rw [if_pos (by omega)]
      rw [if_neg (by omega)]
      rw [(by omega : tm + 1 - 1 = tm)]
      rw [min_eq_right (by omega : daysInMonth ty tm ≤ d.day)]

theorem dropWhile_eq_self_of_forall {p : Char → Bool} :
    ∀ l : List Char, (∀ c ∈ l, p c = false) → l.dropWhile p = l := by
  intro l h
  cases l with
  | nil => rfl
  | cons a t => rw [List.dropWhile_cons, if_neg (by simp [h a (by simp)])]

theorem trimChars_eq_self {l : List Char} (h : ∀ c ∈ l, jsIsWs c = false) :
    trimChars l = l := by
  unfold trimChars
  rw [dropWhile_eq_self_of_forall l h,
    dropWhile_eq_self_of_forall l.reverse
      (fun c hc => h c (List.mem_reverse.mp hc)),
    List.reverse_reverse]

theorem jsTrim_eq_self {s : String} (h : ∀ c ∈ s.data, jsIsWs c = false) :
    jsTrim s = s := by
  unfold jsTrim
  rw [trimChars_eq_self h]

theorem digitChar_not_ws : ∀ k, k < 10 → jsIsWs (digitChar k) = false := by decide

theorem natToCharsAux_not_ws :
    ∀ fuel n, ∀ c ∈ natToCharsAux fuel n, jsIsWs c = false := by
  intro fuel
  induction fuel with
  | zero => intro n c hc; simp [natToCharsAux] at hc
  | succ f ih =>
    intro n c hc
    unfold natToCharsAux at hc
    by_cases h : n < 10
    · rw [if_pos h] at hc
      simp only [List.mem_singleton] at hc
      subst hc
      exact digitChar_not_ws _ h
    · rw [if_neg h] at hc
      rcases List.mem_append.mp hc with h1 | h1
      · exact ih _ c h1
      · simp only [List.mem_singleton] at h1
        subst h1
        exact digitChar_not_ws _ (Nat.mod_lt _ (by omega))

theorem natToString_not_ws (n : Nat) :
    ∀ c ∈ (natToString n).data, jsIsWs c = false := by
  intro c hc
  exact natToCharsAux_not_ws _ _ c hc

theorem string_data_append (s t : String) : (s ++ t).data = s.data ++ t.data := rfl

theorem intToString_not_ws (i : Int) :
    ∀ c ∈ (intToString i).data, jsIsWs c = false := by
  intro c hc
  unfold intToString at hc
  split_ifs at hc
  · rw [string_data_append] at hc
    rcases List.mem_append.mp hc with h1 | h1
    · simp only [show ("-" : String).data = ['-'] from rfl, List.mem_singleton] at h1
      subst h1
      decide
    · exact natToString_not_ws _ c h1
  · exact natToString_not_ws _ c hc

theorem padStart2_not_ws {s : String} (h : ∀ c ∈ s.data, jsIsWs c = false) :
    ∀ c ∈ (padStart2 s).data, jsIsWs c = false := by
  intro c hc
  unfold padStart2 at hc
  split_ifs at hc
  · exact h c hc
  · rw [string_data_append] at hc
    rcases List.mem_append.mp hc with h1 | h1
    · simp only [show ("0" : String).data = ['0'] from rfl, List.mem_singleton] at h1
      subst h1
      decide
    · exact h c h1
  · have hc0 : c = '0' := by
      simpa [show ("00" : String).data = ['0', '0'] from rfl] using hc
    subst hc0
    decide

theorem toISODate_not_ws (d : CalDate) :
    ∀ c ∈ (toISODate d).data, jsIsWs c = false := by
  intro c hc
  unfold toISODate at hc
  rw [string_data_append, string_data_append, string_data_append,
    string_data_append] at hc
  rcases List.mem_append.mp hc with h1 | h1
  · rcases List.mem_append.mp h1 with h2 | h2
    · rcases List.mem_append.mp h2 with h3 | h3
      · rcases List.mem_append.mp h3 with h4 | h4
        · exact intToString_not_ws _ c h4
        · simp only [show ("-" : String).data = ['-'] from rfl,
            List.mem_singleton] at h4
          subst h4
          decide
      · exact padStart2_not_ws (intToString_not_ws _) c h3
    · simp only [show ("-" : String).data = ['-'] from rfl,
        List.mem_singleton] at h2
      subst h2
      decide
  · exact padStart2_not_ws (intToString_not_ws _) c h1

theorem jsTrim_toISODate (d : CalDate) : jsTrim (toISODate d) = toISODate d :=
  jsTrim_eq_self (toISODate_not_ws d)

/-- Case analysis on the resolver output: it is the legal-hold pair, the
not-started pair, or a started/expired pair with an ISO deletion date. -/
theorem resolveDoc_cases (empMap : String → Option EmpMini) (today : CalDate)
    (d : RetDoc) :
    resolveDoc empMap today d = ("legal hold", none) ∨
    resolveDoc empMap today d = ("not started", none) ∨
    ∃ del, resolveDoc empMap today d = ("expired", some (toISODate del)) ∨
      resolveDoc empMap today d = ("started", some (toISODate del)) := by
  unfold resolveDoc resolveTermination resolveCassation
  dsimp only
  repeat' split
  all_goals first
    | exact Or.inl rfl
    | exact Or.inr (Or.inl rfl)
    | exact Or.inr (Or.inr ⟨_, Or.inl rfl⟩)
    | exact Or.inr (Or.inr ⟨_, Or.inr rfl⟩)

/-- The resolver does not read the stored output columns. -/
theorem resolveDoc_ignores_outputs (empMap : String → Option EmpMini)
    (today : CalDate) (d : RetDoc) (s del : Option String) :
    resolveDoc empMap today { d with d_r_status := s, d_r_deletion := del } =
      resolveDoc empMap today d := rfl

/-- The resolver status strings are fixed points of `norm`. -/
theorem norm_resolveDoc_status (empMap : String → Option EmpMini)
    (today : CalDate) (d : RetDoc) :
    norm (some (resolveDoc empMap today d).1) = (resolveDoc empMap today d).1 := by
  rcases resolveDoc_cases empMap today d with h | h | ⟨del, h | h⟩ <;> rw [h]
  · decide
  · decide
  · show norm (some "expired") = "expired"
    decide
  · show norm (some "started") = "started"
    decide

/-- The resolver deletion output normalises to itself (with the empty
string for null). -/
theorem norm_resolveDoc_deletion (empMap : String → Option EmpMini)
    (today : CalDate) (d : RetDoc) :
    norm (resolveDoc empMap today d).2 = ((resolveDoc empMap today d).2).getD "" := by
  rcases resolveDoc_cases empMap today d with h | h | ⟨del, h | h⟩ <;> rw [h]
  · decide
  · decide
  · exact jsTrim_toISODate del
  · exact jsTrim_toISODate del

/-- After a resolver pass has applied its queued update to a document, a
second same-day pass queues nothing for it. -/
theorem docUpdate_applyDoc (empMap : String → Option EmpMini) (today : CalDate)
    (d : RetDoc) : docUpdate empMap today (applyDoc empMap today d) = none := by
  by_cases hid : d.d_id = ""
  · have h1 : docUpdate empMap today d = none := by
      unfold docUpdate
      rw [if_pos hid]
    simp only [applyDoc, h1]
  · cases hu : docUpdate empMap today d with
    | none => simp only [applyDoc, hu]
    | some u =>
      have hr : u = ⟨d.d_id, (resolveDoc empMap today d).1, (resolveDoc empMap today d).2⟩ := by
        unfold docUpdate at hu
        rw [if_neg hid] at hu
        dsimp only at hu
        split at hu
        · exact (Option.some.inj hu).symm
        · exact absurd hu (by simp)
      subst hr
      simp only [applyDoc, hu]
      unfold docUpdate
      dsimp only
      rw [if_neg hid]
      rw [resolveDoc_ignores_outputs]
      rw [if_neg ?_]
      push_neg
      exact ⟨norm_resolveDoc_status empMap today d,
        norm_resolveDoc_deletion empMap today d⟩

/-- A second same-day resolver pass over the post-update table queues no
writes at all. -/
theorem runBatchUpdates_applyDoc (empMap : String → Option EmpMini)
    (today : CalDate) (docs : List RetDoc) :
    runBatchUpdates empMap today (docs.map (applyDoc empMap today)) = [] := by
  unfold runBatchUpdates
  rw [List.filterMap_map]
  exact List.filterMap_eq_nil_iff.mpr
    (fun d _ => docUpdate_applyDoc empMap today d)

theorem chunkAux_flatten {α : Type} :
    ∀ fuel (l : List α) size, l.length < fuel → 0 < size →
      (chunkAux fuel l size).flatten = l := by
  intro fuel
  induction fuel with
  | zero => intro l size h _; omega
  | succ f ih =>
    intro l size h hs
    unfold chunkAux
    by_cases he : l.isEmpty || size == 0
    · rw [if_pos he]
      simp only [Bool.or_eq_true, List.isEmpty_iff, beq_iff_eq] at he
      rcases he with he | he
      · rw [he]; rfl
      · omega
    · rw [if_neg he]
      simp only [Bool.or_eq_true, List.isEmpty_iff, beq_iff_eq, not_or] at he
      rw [List.flatten_cons,
        ih (l.drop size) size
          (by
            rw [List.length_drop]
            have : l.length ≠ 0 := fun h0 => he.1 (List.length_eq_zero.mp h0)
            omega)
          hs,
        List.take_append_drop]

theorem chunk_flatten {α : Type} (l : List α) (size : Nat) (hs : 0 < size) :
    (chunk l size).flatten = l :=
  chunkAux_flatten _ l size (by omega) hs

theorem foldl_chunk_count (L : List (List String)) (n : Nat) :
    L.foldl (fun acc c => if c.length = 0 then acc else acc + c.length) n =
      n + (L.map List.length).sum := by
  induction L generalizing n with
  | nil => simp
  | cons c cs ih =>
    rw [List.foldl_cons, ih, List.map_cons, List.sum_cons]
    by_cases h : c.length = 0
    · rw [if_pos h]; omega
    · rw [if_neg h]; omega

/-- The chunked counter of the legal-hold update loop accumulates exactly
the length of the id list. -/
theorem countViaChunks_eq (ids : List String) : countViaChunks ids = ids.length := by
  unfold countViaChunks
  rw [foldl_chunk_count]
  have h := congrArg List.length (chunk_flatten ids 500 (by omega))
  rw [List.length_flatten] at h
  omega

theorem applyHoldTo_nil (docs : List LhDoc) (b : Bool) :
    applyHoldTo docs [] b = docs := by
  unfold applyHoldTo
  simp

theorem applyHoldTo_append (docs : List LhDoc) (c1 c2 : List String) (b : Bool) :
    applyHoldTo (applyHoldTo docs c1 b) c2 b = applyHoldTo docs (c1 ++ c2) b := by
  unfold applyHoldTo
  rw [List.map_map]
  apply List.map_congr_left
  intro d _
  by_cases h1 : d.d_id ∈ c1
  · by_cases h2 : d.d_id ∈ c2 <;>
      simp [Function.comp, h1, h2, List.mem_append]
  · by_cases h2 : d.d_id ∈ c2 <;>
      simp [Function.comp, h1, h2, List.mem_append]

theorem foldl_applyHoldTo (b : Bool) :
    ∀ (L : List (List String)) (docs : List LhDoc),
      L.foldl (fun ds c => applyHoldTo ds c b) docs = applyHoldTo docs L.flatten b := by
  intro L
  induction L with
  | nil =>
    intro docs
    rw [List.foldl_nil, List.flatten_nil, applyHoldTo_nil]
  | cons c cs ih =>
    intro docs
    rw [List.foldl_cons, ih, applyHoldTo_append, List.flatten_cons]

/-- The chunked update loop is the single bulk update. -/
theorem applyHoldChunks_eq (docs : List LhDoc) (ids : List String) (b : Bool) :
    applyHoldChunks docs ids b = applyHoldTo docs ids b := by
  unfold applyHoldChunks
  rw [foldl_applyHoldTo, chunk_flatten ids 500 (by omega)]

/-- Activation candidate ids come from documents with a false hold flag. -/
theorem mem_activateDocIds_elim {docs : List LhDoc} {emps : List LhEmp} {i : String}
    (h : i ∈ activateDocIds docs emps) :
    ∃ d ∈ docs, d.d_id = i ∧ d.e_lhold = some false := by
  rcases List.mem_map.mp h with ⟨d, hd, hdi⟩
  rcases List.mem_filter.mp hd with ⟨hd1, _⟩
  rcases List.mem_filter.mp hd1 with ⟨hd2, hd3⟩
  exact ⟨d, hd2, hdi, by simpa using hd3⟩

/-- Removal candidate ids come from documents with a true hold flag. -/
theorem mem_removeDocIds_elim {docs : List LhDoc} {emps : List LhEmp} {i : String}
    (h : i ∈ removeDocIds docs emps) :
    ∃ d ∈ docs, d.d_id = i ∧ d.e_lhold = some true := by
  rcases List.mem_map.mp h with ⟨d, hd, hdi⟩
  rcases List.mem_filter.mp hd with ⟨hd1, _⟩
  rcases List.mem_filter.mp hd1 with ⟨hd2, hd3⟩
  exact ⟨d, hd2, hdi, by simpa using hd3⟩

/-- With unique document ids, no id is both an activation and a removal
candidate. -/
theorem act_rem_disjoint {docs : List LhDoc} {emps : List LhEmp}
    (hnd : (docs.map LhDoc.d_id).Nodup) :
    ∀ i ∈ activateDocIds docs emps, i ∉ removeDocIds docs emps := by
  intro i hact hrem
  rcases mem_activateDocIds_elim hact with ⟨da, hda, hia, hfa⟩
  rcases mem_removeDocIds_elim hrem with ⟨dr, hdr, hir, hfr⟩
  have : da = dr :=
    List.inj_on_of_nodup_map hnd hda hdr (by rw [hia, hir])
  rw [this, hfr] at hfa
  exact Option.noConfusion hfa (fun h => Bool.noConfusion h)

/-- Whether some report row carries the given label. -/
def anyLabel (rows : List OutRow) (label : String) : Bool :=
  rows.any (fun r => r.label = label)

theorem getValue_setValue_ne (rows : List OutRow) (l1 l2 v : String)
    (h : l2 ≠ l1) : getValue (setValue rows l1 v) l2 = getValue rows l2 := by
  induction rows with
  | nil => rfl
  | cons r rs ih =>
    simp only [setValue, List.map_cons, getValue] at ih ⊢
    by_cases hr1 : r.label = l1
    · rw [if_pos hr1]
      by_cases hr2 : r.label = l2
      · exact absurd (hr2.symm.trans hr1) h
      · rw [List.find?_cons_of_neg _ (by simpa using hr2),
          List.find?_cons_of_neg _ (by simpa using hr2)]
        exact ih
    · rw [if_neg hr1]
      by_cases hr2 : r.label = l2
      · rw [List.find?_cons_of_pos _ (by simpa using hr2),
          List.find?_cons_of_pos _ (by simpa using hr2)]
      · rw [List.find?_cons_of_neg _ (by simpa using hr2),
          List.find?_cons_of_neg _ (by simpa using hr2)]
        exact ih

theorem getValue_setValue_eq (rows : List OutRow) (l v : String)
    (h : anyLabel rows l = true) : getValue (setValue rows l v) l = v := by
  induction rows with
  | nil => simp [anyLabel] at h
  | cons r rs ih =>
    simp only [setValue, List.map_cons, getValue] at ih ⊢
    by_cases hr : r.label = l
    · rw [if_pos hr]
      rw [List.find?_cons_of_pos _ (by simpa using hr)]
      rfl
    · rw [if_neg hr]
      rw [List.find?_cons_of_neg _ (by simpa using hr)]
      have h2 : anyLabel rs l = true := by
        simp only [anyLabel, List.any_cons, Bool.or_eq_true] at h
        rcases h with h | h
        · exact absurd (by simpa using h) hr
        · exact h
      exact ih h2

theorem anyLabel_setValue (rows : List OutRow) (l1 l2 v : String) :
    anyLabel (setValue rows l1 v) l2 = anyLabel rows l2 := by
  induction rows with
  | nil => rfl
  | cons r rs ih =>
    simp only [setValue, List.map_cons, anyLabel, List.any_cons] at ih ⊢
    rw [ih]
    by_cases hr : r.label = l1
    · rw [if_pos hr]
    · rw [if_neg hr]

theorem anyLabel_clearAllValues (rows : List OutRow) (l : String) :
    anyLabel (clearAllValues rows) l = anyLabel rows l := by
  induction rows with
  | nil => rfl
  | cons r rs ih =>
    simp only [clearAllValues, List.map_cons, anyLabel, List.any_cons] at ih ⊢
    rw [ih]
    by_cases hr : r.isBlank
    · rw [if_pos hr]
    · rw [if_neg hr]

theorem err_ne_successRet (m : String) : "Error: " ++ m ≠ successRet := by
  intro h
  have h2 : ("Error: " ++ m).data = successRet.data := congrArg String.data h
  rw [string_data_append] at h2
  have h3 := congrArg List.head? h2
  simp [successRet] at h3

theorem err_ne_successLh (m : String) : "Error: " ++ m ≠ successLh := by
  intro h
  have h2 : ("Error: " ++ m).data = successLh.data := congrArg String.data h
  rw [string_data_append] at h2
  have h3 := congrArg List.head? h2
  simp [successLh] at h3

/-! Claim theorems. -/

/-- C1: for every document whose e_lhold flag is true, the resolver
computes the pair (status "legal hold", deletion null), regardless of
trigger, rule, month or employee termination state — the legal-hold check
is the first test of the per-document branch and short-circuits all other
logic. -/
theorem c1_legal_hold_short_circuit (empMap : String → Option EmpMini)
    (today : CalDate) (d : RetDoc) (h : jsTruthyB d.e_lhold = true) :
    resolveDoc empMap today d = ("legal hold", none) := by
  unfold resolveDoc
  rw [if_pos h]

/-- C1 witness: the legal-hold sample document resolves to the legal-hold
pair. -/
theorem c1_legal_hold_short_circuit_witness :
    jsTruthyB docLhW.e_lhold = true ∧
    resolveDoc empMapW ⟨2024, 6, 1⟩ docLhW = ("legal hold", none) :=
  ⟨rfl, c1_legal_hold_short_circuit empMapW ⟨2024, 6, 1⟩ docLhW rfl⟩

/-- C2: with no legal hold and finite months, a termination trigger with a
terminated employee carrying a parseable termination date, or a cassation
trigger with a parseable document date, yields status "expired" exactly
when the deletion date (base plus months) lies strictly before today in
the date-only comparison, and "started" otherwise, together with the ISO
deletion date; the first conjunct pins the comparison down as the strict
date-only order. -/
theorem c2_expired_iff_deletion_before_today (empMap : String → Option EmpMini)
    (today : CalDate) (d : RetDoc) (mo : Int)
    (hL : jsTruthyB d.e_lhold = false) (hmo : d.d_r_month = some mo) :
    (∀ x y : CalDate, isExpiredPerSpec x y = true ↔ dateOnlyTs x < dateOnlyTs y) ∧
    (∀ emp t, trigOf d = "termination" → lookupEmp empMap d = some emp →
      isTerminated emp = true → emp.e_tdate = DateVal.valid t →
      resolveDoc empMap today d =
        ((if isExpiredPerSpec (addMonths t mo) today then "expired"
          else "started"), some (toISODate (addMonths t mo)))) ∧
    (∀ b, trigOf d = "cassation date" → d.d_date = DateVal.valid b →
      resolveDoc empMap today d =
        ((if isExpiredPerSpec (addMonths b mo) today then "expired"
          else "started"), some (toISODate (addMonths b mo)))) := by
  refine ⟨fun x y => by simp [isExpiredPerSpec], ?_, ?_⟩
  · intro emp t htrig hemp hterm htd
    unfold resolveDoc
    rw [if_neg (by simp [hL])]
    simp only [hmo]
    rw [if_neg (by simp [htrig]), if_pos htrig]
    unfold resolveTermination
    simp only [hemp]
    rw [if_neg (by simp [hterm])]
    simp only [htd]
  · intro b htrig hdd
    unfold resolveDoc
    rw [if_neg (by simp [hL])]
    simp only [hmo]
    rw [if_neg (by simp [htrig]), if_neg (by simp [htrig]), if_pos htrig]
    unfold resolveCassation
    simp only [hdd]

/-- C2 witness: the sample terminated employee (2023-01-15, 12 months)
gives deletion 2024-01-15, classified expired on 2024-06-01. -/
theorem c2_expired_iff_deletion_before_today_witness :
    resolveDoc empMapW ⟨2024, 6, 1⟩ docTermW = ("expired", some "2024-01-15") := by
  have h := (c2_expired_iff_deletion_before_today empMapW ⟨2024, 6, 1⟩ docTermW
      12 rfl rfl).2.1 empE2 ⟨2023, 1, 15⟩ (by decide) rfl (by decide) rfl
  rw [h]
  decide

/-- C3: addMonths lands in the normalised target month, preserving the
day-of-month when the target month has enough days and clamping to the
last day of the target month otherwise (never spilling further); the two
clamping examples of the spec evaluate as stated. -/
theorem c3_addMonths_calendar (d : CalDate) (n : Nat) :
    addMonths d n =
      ⟨d.year + Int.ediv (d.month - 1 + n) 12,
       Int.emod (d.month - 1 + n) 12 + 1,
       min d.day
         (daysInMonth (d.year + Int.ediv (d.month - 1 + n) 12)
           (Int.emod (d.month - 1 + n) 12 + 1))⟩ ∧
    addMonths ⟨2024, 1, 31⟩ 1 = ⟨2024, 2, 29⟩ ∧
    addMonths ⟨2023, 1, 31⟩ 1 = ⟨2023, 2, 28⟩ :=
  ⟨addMonths_eq_clamp d n, by decide, by decide⟩

/-- C4 counterexample: a finite negative month count is not caught by the
fallback guard — the claim would require ("not started", null), but the
resolver computes a deletion date (here 2019-12-15) and status expired. -/
theorem c4_counterexample_negative_months :
    docNegW.d_r_month = some (-1) ∧ ((-1 : Int) < 0) ∧
    jsTruthyB docNegW.e_lhold = false ∧
    resolveDoc (fun _ => none) ⟨2024, 6, 1⟩ docNegW =
      ("expired", some "2019-12-15") ∧
    resolveDoc (fun _ => none) ⟨2024, 6, 1⟩ docNegW ≠ ("not started", none) := by
  refine ⟨rfl, by decide, rfl, by decide, by decide⟩

/-- C4 amended: with no legal hold, an empty normalised trigger or a
non-finite month value makes the resolver output ("not started", null);
a finite negative month value is not caught by this fallback and proceeds
to the trigger branches. -/
theorem c4_amended_fallback (empMap : String → Option EmpMini) (today : CalDate)
    (d : RetDoc) (hL : jsTruthyB d.e_lhold = false)
    (h : trigOf d = "" ∨ d.d_r_month = none) :
    resolveDoc empMap today d = ("not started", none) := by
  unfold resolveDoc
  rw [if_neg (by simp [hL])]
  rcases h with h | h
  · cases hm : d.d_r_month with
    | none => simp only [hm]
    | some mo =>
      simp only [hm]
      rw [if_pos h]
  · simp only [h]

/-- C4 amended witness: the empty-trigger sample document resolves to the
not-started pair. -/
theorem c4_amended_fallback_witness :
    jsTruthyB docEmptyTrigW.e_lhold = false ∧
    resolveDoc empMapW ⟨2024, 6, 1⟩ docEmptyTrigW = ("not started", none) :=
  ⟨rfl, c4_amended_fallback empMapW ⟨2024, 6, 1⟩ docEmptyTrigW rfl (Or.inl rfl)⟩

/-- C5: on every branch the computed status is one of "not started",
"started", "legal hold", "expired" — never "not set". -/
theorem c5_status_never_not_set (empMap : String → Option EmpMini)
    (today : CalDate) (d : RetDoc) :
    ((resolveDoc empMap today d).1 = "not started" ∨
     (resolveDoc empMap today d).1 = "started" ∨
     (resolveDoc empMap today d).1 = "legal hold" ∨
     (resolveDoc empMap today d).1 = "expired") ∧
    (resolveDoc empMap today d).1 ≠ "not set" := by
  rcases resolveDoc_cases empMap today d with h | h | ⟨del, h | h⟩ <;> rw [h]
  · exact ⟨Or.inr (Or.inr (Or.inl rfl)),
      (by decide : ("legal hold" : String) ≠ "not set")⟩
  · exact ⟨Or.inl rfl, (by decide : ("not started" : String) ≠ "not set")⟩
  · exact ⟨Or.inr (Or.inr (Or.inr rfl)),
      (by decide : ("expired" : String) ≠ "not set")⟩
  · exact ⟨Or.inr (Or.inl rfl), (by decide : ("started" : String) ≠ "not set")⟩

/-- C9: the computed deletion is non-null exactly when the computed status
is "started" or "expired"; the legal-hold and not-started branches emit a
null deletion, the started/expired branches an ISO date. -/
theorem c9_deletion_iff_started_expired (empMap : String → Option EmpMini)
    (today : CalDate) (d : RetDoc) :
    ((resolveDoc empMap today d).2).isSome = true ↔
      ((resolveDoc empMap today d).1 = "started" ∨
       (resolveDoc empMap today d).1 = "expired") := by
  rcases resolveDoc_cases empMap today d with h | h | ⟨del, h | h⟩ <;> rw [h] <;> simp

/-- C6: for a document with a truthy id, a write is queued exactly when
the normalised stored pair (trim on the status, trim with "" for null on
the deletion) differs from the computed target pair; and a second resolver
pass on the same date over the post-update table queues zero writes. -/
theorem c6_write_iff_changed_and_idempotent (empMap : String → Option EmpMini)
    (today : CalDate) (docs : List RetDoc) (d : RetDoc) (hid : d.d_id ≠ "") :
    ((docUpdate empMap today d).isSome = true ↔
      ¬(norm d.d_r_status = (resolveDoc empMap today d).1 ∧
        norm d.d_r_deletion = ((resolveDoc empMap today d).2).getD "")) ∧
    runBatchUpdates empMap today (docs.map (applyDoc empMap today)) = [] := by
  constructor
  · unfold docUpdate
    rw [if_neg hid]
    dsimp only
    split
    · rename_i hcond
      simp only [Option.isSome_some, true_iff]
      tauto
    · rename_i hcond
      simp only [Option.isSome_none]
      constructor
      · intro hx
        exact absurd hx (by decide)
      · intro hx
        push_neg at hcond
        exact absurd ⟨hcond.1, hcond.2⟩ hx
  · exact runBatchUpdates_applyDoc empMap today docs

/-- C6 witness: instantiation on the sample snapshot — the second pass
after applying the queued updates queues nothing. -/
theorem c6_write_iff_changed_and_idempotent_witness :
    docTermW.d_id ≠ "" ∧
    runBatchUpdates empMapW ⟨2024, 6, 1⟩
      ([docTermW, docLhW].map (applyDoc empMapW ⟨2024, 6, 1⟩)) = [] :=
  ⟨by decide,
    (c6_write_iff_changed_and_idempotent empMapW ⟨2024, 6, 1⟩
      [docTermW, docLhW] docTermW (by decide)).2⟩

/-- C7: with unique document ids and non-empty employee ids, the
activation set is exactly the documents with a false hold flag whose
referenced employee has a true hold flag, the removal set exactly the
documents with a true hold flag whose referenced employee has a false
hold flag, an orphan document is in neither set, the run sets the hold
flag true on the activation set and false on the removal set (and touches
nothing else), and the reported activated count is the size of the
activation set. -/
theorem c7_propagator_exact (docs : List LhDoc) (emps : List LhEmp)
    (hnd : (docs.map LhDoc.d_id).Nodup)
    (hene : ∀ e ∈ emps, e.e_id ≠ "") :
    (∀ d ∈ docs,
      (d.d_id ∈ activateDocIds docs emps ↔
        d.e_lhold = some false ∧
          ∃ emp ∈ emps, d.e_id = some emp.e_id ∧ emp.e_lhold = some true)) ∧
    (∀ d ∈ docs,
      (d.d_id ∈ removeDocIds docs emps ↔
        d.e_lhold = some true ∧
          ∃ emp ∈ emps, d.e_id = some emp.e_id ∧ emp.e_lhold = some false)) ∧
    (∀ d ∈ docs, (∀ emp ∈ emps, d.e_id ≠ some emp.e_id) →
      d.d_id ∉ activateDocIds docs emps ∧ d.d_id ∉ removeDocIds docs emps) ∧
    runLhPropagator docs emps =
      docs.map (fun d =>
        if d.d_id ∈ activateDocIds docs emps then { d with e_lhold := some true }
        else if d.d_id ∈ removeDocIds docs emps then { d with e_lhold := some false }
        else d) ∧
    countViaChunks (activateDocIds docs emps) = (activateDocIds docs emps).length := by
  have hact : ∀ d ∈ docs,
      (d.d_id ∈ activateDocIds docs emps ↔
        d.e_lhold = some false ∧
          ∃ emp ∈ emps, d.e_id = some emp.e_id ∧ emp.e_lhold = some true) := by
    intro d hd
    constructor
    · intro hmem
      rcases List.mem_map.mp hmem with ⟨d2, hd2, hdi⟩
      rcases List.mem_filter.mp hd2 with ⟨hd3, hpred⟩
      rcases List.mem_filter.mp hd3 with ⟨hd4, hflag⟩
      have hdd : d2 = d := List.inj_on_of_nodup_map hnd hd4 hd hdi
      subst hdd
      refine ⟨by simpa using hflag, ?_⟩
      cases he : d2.e_id with
      | none => rw [he] at hpred; exact absurd hpred (by simp)
      | some eid =>
        rw [he] at hpred
        simp only [Bool.and_eq_true, decide_eq_true_eq, List.any_eq_true] at hpred
        rcases hpred with ⟨hne, e2, he2, heq⟩
        rcases List.mem_filter.mp he2 with ⟨hee, hflag2⟩
        refine ⟨e2, hee, ?_, by simpa using hflag2⟩
        rw [heq]
    · rintro ⟨hflag, e2, he2, heid, hflag2⟩
      apply List.mem_map.mpr
      refine ⟨d, List.mem_filter.mpr ⟨List.mem_filter.mpr ⟨hd, by simp [hflag]⟩, ?_⟩, rfl⟩
      rw [heid]
      simp only [Bool.and_eq_true, decide_eq_true_eq, List.any_eq_true]
      exact ⟨hene e2 he2, e2, List.mem_filter.mpr ⟨he2, by simp [hflag2]⟩, by simp⟩
  have hrem : ∀ d ∈ docs,
      (d.d_id ∈ removeDocIds docs emps ↔
        d.e_lhold = some true ∧
          ∃ emp ∈ emps, d.e_id = some emp.e_id ∧ emp.e_lhold = some false) := by
    intro d hd
    constructor
    · intro hmem
      rcases List.mem_map.mp hmem with ⟨d2, hd2, hdi⟩
      rcases List.mem_filter.mp hd2 with ⟨hd3, hpred⟩
      rcases List.mem_filter.mp hd3 with ⟨hd4, hflag⟩
      have hdd : d2 = d := List.inj_on_of_nodup_map hnd hd4 hd hdi
      subst hdd
      refine ⟨by simpa using hflag, ?_⟩
      cases he : d2.e_id with
      | none => rw [he] at hpred; exact absurd hpred (by simp)
      | some eid =>
        rw [he] at hpred
        simp only [Bool.and_eq_true, decide_eq_true_eq, List.any_eq_true] at hpred
        rcases hpred with ⟨hne, e2, he2, heq⟩
        rcases List.mem_filter.mp he2 with ⟨hee, hflag2⟩
        refine ⟨e2, hee, ?_, by simpa using hflag2⟩
        rw [heq]
    · rintro ⟨hflag, e2, he2, heid, hflag2⟩
      apply List.mem_map.mpr
      refine ⟨d, List.mem_filter.mpr ⟨List.mem_filter.mpr ⟨hd, by simp [hflag]⟩, ?_⟩, rfl⟩
      rw [heid]
      simp only [Bool.and_eq_true, decide_eq_true_eq, List.any_eq_true]
      exact ⟨hene e2 he2, e2, List.mem_filter.mpr ⟨he2, by simp [hflag2]⟩, by simp⟩
  refine ⟨hact, hrem, ?_, ?_, countViaChunks_eq _⟩
  · intro d hd horph
    constructor
    · intro hmem
      rcases ((hact d hd).mp hmem).2 with ⟨e2, he2, heid, _⟩
      exact horph e2 he2 heid
    · intro hmem
      rcases ((hrem d hd).mp hmem).2 with ⟨e2, he2, heid, _⟩
      exact horph e2 he2 heid
  · unfold runLhPropagator
    rw [applyHoldChunks_eq, applyHoldChunks_eq]
    unfold applyHoldTo
    rw [List.map_map]
    apply List.map_congr_left
    intro d hd
    by_cases ha : d.d_id ∈ activateDocIds docs emps
    · have hr : d.d_id ∉ removeDocIds docs emps := act_rem_disjoint hnd _ ha
      simp [Function.comp, ha, hr]
    · by_cases hr : d.d_id ∈ removeDocIds docs emps <;>
        simp [Function.comp, ha, hr]

/-- C7 witness: instantiation on the sample snapshot — one activation, one
removal, one untouched orphan. -/
theorem c7_propagator_exact_witness :
    (lhDocsW.map LhDoc.d_id).Nodup ∧ (∀ e ∈ lhEmpsW, e.e_id ≠ "") ∧
    runLhPropagator lhDocsW lhEmpsW =
      lhDocsW.map (fun d =>
        if d.d_id ∈ activateDocIds lhDocsW lhEmpsW then { d with e_lhold := some true }
        else if d.d_id ∈ removeDocIds lhDocsW lhEmpsW then { d with e_lhold := some false }
        else d) ∧
    countViaChunks (activateDocIds lhDocsW lhEmpsW) =
      (activateDocIds lhDocsW lhEmpsW).length :=
  ⟨by decide, by decide,
    (c7_propagator_exact lhDocsW lhEmpsW (by decide) (by decide)).2.2.2.1,
    (c7_propagator_exact lhDocsW lhEmpsW (by decide) (by decide)).2.2.2.2⟩

/-- C10: with unique document ids, no document id is both an activation
and a removal candidate of the same run — the activation candidates carry
a false hold flag, the removal candidates a true one. -/
theorem c10_sets_disjoint (docs : List LhDoc) (emps : List LhEmp)
    (hnd : (docs.map LhDoc.d_id).Nodup) :
    ∀ i ∈ activateDocIds docs emps, i ∉ removeDocIds docs emps :=
  act_rem_disjoint hnd

/-- C10 witness: on the sample snapshot the activated document D1 is not
in the removal set. -/
theorem c10_sets_disjoint_witness :
    (lhDocsW.map LhDoc.d_id).Nodup ∧
    "D1" ∉ removeDocIds lhDocsW lhEmpsW :=
  ⟨by decide, c10_sets_disjoint lhDocsW lhEmpsW (by decide) "D1" (by decide)⟩

/-- C8 counterexample: a retention run whose employee read fails still
shows the document total collected before the failure ("1", a partial
count) next to the error status — counts are not discarded and the
operator does not see a count-free error screen. -/
theorem c8_counterexample_partial_counts :
    (runRetBatch ⟨2024, 6, 1⟩ "10:00:00.000" "" "" (Except.ok [docTermW])
      (Except.error "db down") (fun _ => Except.ok ())
      ⟨initialRetRows, ""⟩).status = "Error: db down" ∧
    getValue (runRetBatch ⟨2024, 6, 1⟩ "10:00:00.000" "" ""
      (Except.ok [docTermW]) (Except.error "db down") (fun _ => Except.ok ())
      ⟨initialRetRows, ""⟩).rows "Total number of documents" = "1" ∧
    ("1" : String) ≠ "" := by
  refine ⟨by decide, by decide, by decide⟩

/-- C8 amended: a failing run reports the error status of its first
failing step and the success message appears only when every step
succeeded, but the count fields populated before the failure keep their
values (they are not discarded): shown here for the document total of the
retention batch and the employee total of the legal-hold batch. -/
theorem c8_amended_error_reporting (today : CalDate) (t0 t1 du : String)
    (docsRes : Except String (List RetDoc))
    (empsRes : Except String (List EmpMini))
    (writeRes : String → Except String Unit)
    (emps : List LhEmp) (docs : List LhDoc)
    (e1 e2 e3 e4 e5 e6 : Option String)
    (u1 u2 : List String → Except String Unit) :
    (∀ m, docsRes = Except.error m →
      (runRetBatch today t0 t1 du docsRes empsRes writeRes
        ⟨initialRetRows, ""⟩).status = "Error: " ++ m) ∧
    (∀ ds, docsRes = Except.ok ds →
      getValue (runRetBatch today t0 t1 du docsRes empsRes writeRes
        ⟨initialRetRows, ""⟩).rows "Total number of documents" =
        natToString ds.length) ∧
    ((runRetBatch today t0 t1 du docsRes empsRes writeRes
        ⟨initialRetRows, ""⟩).status = successRet →
      ∃ ds es, docsRes = Except.ok ds ∧ empsRes = Except.ok es ∧
        applyRetWrites writeRes (runBatchUpdates (buildEmpMap es) today ds) =
          Except.ok ()) ∧
    (∀ m, e1 = some m →
      (runLhBatch emps docs e1 e2 e3 e4 e5 u1 u2 e6 t0 t1 du
        ⟨initialLhRows, ""⟩).status = "Error: " ++ m) ∧
    (e1 = none →
      getValue (runLhBatch emps docs e1 e2 e3 e4 e5 u1 u2 e6 t0 t1 du
        ⟨initialLhRows, ""⟩).rows "Employees, Total" =
        natToString emps.length) ∧
    ((runLhBatch emps docs e1 e2 e3 e4 e5 u1 u2 e6 t0 t1 du
        ⟨initialLhRows, ""⟩).status = successLh →
      e1 = none ∧ e2 = none ∧ e3 = none ∧ e4 = none ∧ e5 = none ∧
        applyIdChunks u1 (activateDocIds docs emps) = Except.ok () ∧
        applyIdChunks u2 (removeDocIds docs emps) = Except.ok () ∧
        e6 = none) := by
  refine ⟨?_, ?_, ?_, ?_, ?_, ?_⟩
  · intro m hm
    subst hm
    rfl
  · intro ds hds
    subst hds
    unfold runRetBatch
    dsimp only
    cases empsRes with
    | error m =>
      dsimp only
      rw [getValue_setValue_eq]
      rw [anyLabel_setValue, anyLabel_clearAllValues]
      decide
    | ok es =>
      dsimp only
      cases hw : applyRetWrites writeRes (runBatchUpdates (buildEmpMap es) today ds) with
      | error m =>
        dsimp only
        rw [getValue_setValue_ne _ _ _ _ (by decide),
          getValue_setValue_ne _ _ _ _ (by decide),
          getValue_setValue_ne _ _ _ _ (by decide),
          getValue_setValue_ne _ _ _ _ (by decide),
          getValue_setValue_ne _ _ _ _ (by decide),
          getValue_setValue_ne _ _ _ _ (by decide),
          getValue_setValue_eq]
        rw [anyLabel_setValue, anyLabel_clearAllValues]
        decide
      | ok u =>
        cases u
        dsimp only
        rw [getValue_setValue_ne _ _ _ _ (by decide),
          getValue_setValue_ne _ _ _ _ (by decide),
          getValue_setValue_ne _ _ _ _ (by decide),
          getValue_setValue_ne _ _ _ _ (by decide),
          getValue_setValue_ne _ _ _ _ (by decide),
          getValue_setValue_ne _ _ _ _ (by decide),
          getValue_setValue_ne _ _ _ _ (by decide),
          getValue_setValue_ne _ _ _ _ (by decide),
          getValue_setValue_eq]
        rw [anyLabel_setValue, anyLabel_clearAllValues]
        decide
  · intro hsucc
    cases docsRes with
    | error m => exact absurd hsucc (err_ne_successRet m)
    | ok ds =>
      cases empsRes with
      | error m => exact absurd hsucc (err_ne_successRet m)
      | ok es =>
        cases hw : applyRetWrites writeRes (runBatchUpdates (buildEmpMap es) today ds) with
        | error m =>
          unfold runRetBatch at hsucc
          dsimp only at hsucc
          rw [hw] at hsucc
          dsimp only at hsucc
          exact absurd hsucc (err_ne_successRet m)
        | ok u =>
          cases u
          exact ⟨ds, es, rfl, rfl, hw⟩
  · intro m hm
    subst hm
    rfl
  · intro h1
    subst h1
    unfold runLhBatch
    dsimp only
    cases e2 with
    | some m =>
      dsimp only
      rw [getValue_setValue_eq]
      rw [anyLabel_setValue, anyLabel_setValue, anyLabel_setValue,
        anyLabel_clearAllValues]
      decide
    | none =>
      dsimp only
      cases e3 with
      | some m =>
        dsimp only
        rw [getValue_setValue_eq]
        rw [anyLabel_setValue, anyLabel_setValue, anyLabel_setValue,
          anyLabel_clearAllValues]
        decide
      | none =>
        dsimp only
        cases e4 with
        | some m =>
          dsimp only
          rw [getValue_setValue_eq]
          rw [anyLabel_setValue, anyLabel_setValue, anyLabel_setValue,
            anyLabel_clearAllValues]
          decide
        | none =>
          dsimp only
          cases e5 with
          | some m =>
            dsimp only
            rw [getValue_setValue_eq]
            rw [anyLabel_setValue, anyLabel_setValue, anyLabel_setValue,
              anyLabel_clearAllValues]
            decide
          | none =>
            dsimp only
            cases hw1 : applyIdChunks u1 (activateDocIds docs emps) with
            | error m =>
              dsimp only
              rw [getValue_setValue_eq]
              rw [anyLabel_setValue, anyLabel_setValue, anyLabel_setValue,
                anyLabel_clearAllValues]
              decide
            | ok v1 =>
              cases v1
              dsimp only
              cases hw2 : applyIdChunks u2 (removeDocIds docs emps) with
              | error m =>
                dsimp only
                rw [getValue_setValue_eq]
                rw [anyLabel_setValue, anyLabel_setValue, anyLabel_setValue,
                  anyLabel_clearAllValues]
                decide
              | ok v2 =>
                cases v2
                dsimp only
                cases e6 with
                | some m =>
                  dsimp only
                  rw [getValue_setValue_ne _ _ _ _ (by decide),
                    getValue_setValue_ne _ _ _ _ (by decide),
                    getValue_setValue_eq]
                  rw [anyLabel_setValue, anyLabel_setValue, anyLabel_setValue,
                    anyLabel_clearAllValues]
                  decide
                | none =>
                  dsimp only
                  rw [getValue_setValue_ne _ _ _ _ (by decide),
                    getValue_setValue_ne _ _ _ _ (by decide),
                    getValue_setValue_ne _ _ _ _ (by decide),
                    getValue_setValue_ne _ _ _ _ (by decide),
                    getValue_setValue_ne _ _ _ _ (by decide),
                    getValue_setValue_ne _ _ _ _ (by decide),
                    getValue_setValue_ne _ _ _ _ (by decide),
                    getValue_setValue_eq]
                  rw [anyLabel_setValue, anyLabel_setValue, anyLabel_setValue,
                    anyLabel_clearAllValues]
                  decide
  · intro hsucc
    cases e1 with
    | some m => exact absurd hsucc (err_ne_successLh m)
    | none =>
      cases e2 with
      | some m => exact absurd hsucc (err_ne_successLh m)
      | none =>
        cases e3 with
        | some m => exact absurd hsucc (err_ne_successLh m)
        | none =>
          cases e4 with
          | some m => exact absurd hsucc (err_ne_successLh m)
          | none =>
            cases e5 with
            | some m => exact absurd hsucc (err_ne_successLh m)
            | none =>
              cases hw1 : applyIdChunks u1 (activateDocIds docs emps) with
              | error m =>
                unfold runLhBatch at hsucc
                dsimp only at hsucc
                rw [hw1] at hsucc
                dsimp only at hsucc
                exact absurd hsucc (err_ne_successLh m)
              | ok v1 =>
                cases v1
                cases hw2 : applyIdChunks u2 (removeDocIds docs emps) with
                | error m =>
                  unfold runLhBatch at hsucc
                  dsimp only at hsucc
                  rw [hw1] at hsucc
                  dsimp only at hsucc
                  rw [hw2] at hsucc
                  dsimp only at hsucc
                  exact absurd hsucc (err_ne_successLh m)
                | ok v2 =>
                  cases v2
                  cases e6 with
                  | some m =>
                    unfold runLhBatch at hsucc
                    dsimp only at hsucc
                    rw [hw1] at hsucc
                    dsimp only at hsucc
                    rw [hw2] at hsucc
                    dsimp only at hsucc
                    exact absurd hsucc (err_ne_successLh m)
                  | none =>
                    exact ⟨rfl, rfl, rfl, rfl, rfl, rfl, rfl, rfl⟩

/-- C8 amended witness: a concrete failing retention run keeps the
document total, and a concrete all-clean legal-hold run keeps the
employee total. -/
theorem c8_amended_error_reporting_witness :
    getValue (runRetBatch ⟨2024, 6, 1⟩ "t0" "t1" "0 ms" (Except.ok [docTermW])
      (Except.error "boom") (fun _ => Except.ok ())
      ⟨initialRetRows, ""⟩).rows "Total number of documents" =
      natToString ([docTermW].length) ∧
    getValue (runLhBatch lhEmpsW lhDocsW none none none none none
      (fun _ => Except.ok ()) (fun _ => Except.ok ()) none "t0" "t1" "0 ms"
      ⟨initialLhRows, ""⟩).rows "Employees, Total" =
      natToString lhEmpsW.length :=
  ⟨(c8_amended_error_reporting ⟨2024, 6, 1⟩ "t0" "t1" "0 ms"
      (Except.ok [docTermW]) (Except.error "boom") (fun _ => Except.ok ())
      lhEmpsW lhDocsW none none none none none none
      (fun _ => Except.ok ()) (fun _ => Except.ok ())).2.1 [docTermW] rfl,
   (c8_amended_error_reporting ⟨2024, 6, 1⟩ "t0" "t1" "0 ms"
      (Except.ok [docTermW]) (Except.error "boom") (fun _ => Except.ok ())
      lhEmpsW lhDocsW none none none none none none
      (fun _ => Except.ok ()) (fun _ => Except.ok ())).2.2.2.2.1 rfl⟩

end EHR
